import Mathlib

/-!
Verification of the market-data ingestion engine under src/core/data_engine:
the Binance provider order-book snapshot/diff reconciliation
(providers/binance_provider.py), the ticker-array throttle, the symbol
router, the candle cache (cache_manager.py), and the engine facade
symbol/timeframe setters (core_engine.py, symbol_state.py,
timeframe_state.py).

Modelling conventions: Python float prices/sizes are rationals (the code
only compares them and tests them against zero, so no rounding is
involved); exchange sequence ids are integers; monotonic-clock instants
(time.perf_counter values) are integers counted in milliseconds, so the
throttle constants 0.4 s and 0.1 s become 400 and 100; Python dicts from
price to size are insertion-ordered association lists with unique keys;
asyncio side effects (emitting an event, firing a task) are reified as
returned values and action lists.
-/

namespace Omni

/-- Python str.upper for the ASCII strings used as symbols. -/
def upChar (ch : Char) : Char :=
  if 'a' ≤ ch ∧ ch ≤ 'z' then Char.ofNat (ch.toNat - 32) else ch

/-- Python str.lower for the ASCII strings used as timeframes/symbols. -/
def lowChar (ch : Char) : Char :=
  if 'A' ≤ ch ∧ ch ≤ 'Z' then Char.ofNat (ch.toNat + 32) else ch

/-- upperStr models symbol.upper(). -/
def upperStr (s : String) : String := ⟨s.data.map upChar⟩

/-- lowerStr models symbol.lower() / timeframe.lower(). -/
def lowerStr (s : String) : String := ⟨s.data.map lowChar⟩

/-- One (price, size) order-book level. -/
abbrev Level : Type := ℚ × ℚ

/-- One side of the book: models the insertion-ordered Python dict
price -> size (self._depth_bids / self._depth_asks). -/
abbrev Book : Type := List Level

namespace Book

/-- lookup models dict access by key: the first (unique) matching price. -/
def lookup : Book → ℚ → Option ℚ
  | [], _ => none
  | e :: rest, price => if e.1 = price then some e.2 else lookup rest price

/-- pop models dict.pop(price, None): drop the entry at the given price. -/
def pop : Book → ℚ → Book
  | [], _ => []
  | e :: rest, price => if e.1 = price then rest else e :: pop rest price

/-- upsert models dict[price] = qty: replace in place if the key exists,
append at the end otherwise (dict insertion order). -/
def upsert : Book → ℚ → ℚ → Book
  | [], price, qty => [(price, qty)]
  | e :: rest, price, qty =>
    if e.1 = price then (price, qty) :: rest else e :: upsert rest price qty

/-- toDict models a dict comprehension over (price, qty) pairs. -/
def toDict (entries : List Level) : Book :=
  entries.foldl (fun d e => upsert d e.1 e.2) []

/-- keysNodup is the dict invariant: stored prices are pairwise distinct. -/
def keysNodup (b : Book) : Prop := (b.map Prod.fst).Nodup

/-- allPos: every stored size is strictly positive. -/
def allPos (b : Book) : Prop := ∀ e ∈ b, 0 < e.2

instance (b : Book) : Decidable b.keysNodup :=
  inferInstanceAs (Decidable (b.map Prod.fst).Nodup)

instance (b : Book) : Decidable b.allPos :=
  List.decidableBAll _ b

/-- sortAsc models sorted(items, key=lambda x: x[0]). -/
def sortAsc (b : Book) : Book := b.insertionSort (fun e f => e.1 ≤ f.1)

/-- sortDesc models sorted(items, key=lambda x: x[0], reverse=True). -/
def sortDesc (b : Book) : Book := b.insertionSort (fun e f => f.1 ≤ e.1)

end Book

/-- Replica state of BinanceProvider: _last_depth_update_id, _depth_bids,
_depth_asks. The provider initializes it to id 0 and empty books. -/
structure DepthState where
  lastUpdateId : ℤ
  bids : Book
  asks : Book
deriving DecidableEq

/-- Payload of the REST depth snapshot: bids, asks, lastUpdateId. -/
structure RawSnapshot where
  bids : List Level
  asks : List Level
  lastUpdateId : ℤ
deriving DecidableEq

/-- applySnapshot models the snapshot branch shared by
BinanceProvider._prefetch and BinanceProvider._resync_depth: replace
both books wholesale keeping only levels with size strictly positive,
and set the cursor to the snapshot id. -/
def applySnapshot (snap : RawSnapshot) : DepthState :=
  { lastUpdateId := snap.lastUpdateId
    bids := Book.toDict (snap.bids.filter (fun e => 0 < e.2))
    asks := Book.toDict (snap.asks.filter (fun e => 0 < e.2)) }

/-- DepthSnapshotEvent as emitted after a snapshot fetch: both sides
sorted (bids descending, asks ascending), with no truncation. -/
structure DepthSnapshotEvent where
  symbol : String
  bids : Book
  asks : Book
  lastUpdateId : ℤ
deriving DecidableEq

/-- prefetchSnapshotEvent models the event construction at the end of
_prefetch / _resync_depth. -/
def prefetchSnapshotEvent (symbol : String) (snap : RawSnapshot) :
    DepthState × DepthSnapshotEvent :=
  let st := applySnapshot snap
  (st, { symbol := upperStr symbol
         bids := Book.sortDesc st.bids
         asks := Book.sortAsc st.asks
         lastUpdateId := snap.lastUpdateId })

/-- Diff-stream frame as read by _apply_depth_diff: fields "U" (firstId),
"u" (lastId), "b" (bid changes), "a" (ask changes). payload.get returns
none for a missing field. -/
structure DiffPayload where
  firstId : Option ℤ
  lastId : Option ℤ
  bids : List Level
  asks : List Level
deriving DecidableEq

/-- Outcome of _apply_depth_diff: dropped stands for the bare
(None, None, None) return, resyncRequested for the (None, None, None)
return that also fires the _resync_depth task, applied for the
(bids_list, asks_list, last_id) return. -/
inductive DiffResult where
  | dropped : DiffResult
  | resyncRequested : DiffResult
  | applied (bids asks : Book) (lastUpdateId : ℤ) : DiffResult
deriving DecidableEq

/-- applyChange models one iteration of the per-level loop: size zero
deletes the price key, any other size upserts it. -/
def applyChange (b : Book) (e : Level) : Book :=
  if e.2 = 0 then b.pop e.1 else b.upsert e.1 e.2

/-- applyChanges folds applyChange over the changed levels of one side. -/
def applyChanges (b : Book) (changes : List Level) : Book :=
  changes.foldl applyChange b

/-- applyDepthDiff models BinanceProvider._apply_depth_diff. A missing
payload is the falsy-payload early return; a missing or zero id is the
falsy-id early return; then come the stale-frame guard
(last_id <= cursor) and the gap guard (first_id > cursor + 1000, which
fires the resync task); otherwise both change lists are applied, the
cursor is advanced to last_id, and the sorted books truncated to 50
levels per side are returned. -/
def applyDepthDiff (st : DepthState) (payload : Option DiffPayload) :
    DepthState × DiffResult :=
  match payload with
  | none => (st, DiffResult.dropped)
  | some p =>
    match p.firstId, p.lastId with
    | some firstId, some lastId =>
      if firstId = 0 ∨ lastId = 0 then (st, DiffResult.dropped)
      else if st.lastUpdateId ≠ 0 ∧ lastId ≤ st.lastUpdateId then (st, DiffResult.dropped)
      else if st.lastUpdateId ≠ 0 ∧ st.lastUpdateId + 1000 < firstId then
        (st, DiffResult.resyncRequested)
      else
        let bids := applyChanges st.bids p.bids
        let asks := applyChanges st.asks p.asks
        ({ lastUpdateId := lastId, bids := bids, asks := asks },
         DiffResult.applied ((Book.sortDesc bids).take 50) ((Book.sortAsc asks).take 50) lastId)
    | _, _ => (st, DiffResult.dropped)

/-- DepthUpdateEvent as emitted by _depth_loop. -/
structure DepthUpdateEvent where
  symbol : String
  bids : Book
  asks : Book
  lastUpdateId : ℤ
deriving DecidableEq

/-- depthStep models one message iteration of BinanceProvider._depth_loop:
apply the diff, then emit a DepthUpdateEvent only when the diff was
applied and at least 0.1 s (100 ms) passed since throttleAt. Returns the
new replica state, the new throttle origin, and the emitted event if any. -/
def depthStep (symbol : String) (st : DepthState) (throttleAt : ℤ)
    (now : ℤ) (payload : Option DiffPayload) :
    DepthState × ℤ × Option DepthUpdateEvent :=
  match applyDepthDiff st payload with
  | (st2, DiffResult.applied bids asks updateId) =>
    if 100 ≤ now - throttleAt then
      (st2, now, some { symbol := upperStr symbol, bids := bids, asks := asks,
                        lastUpdateId := updateId })
    else (st2, throttleAt, none)
  | (st2, _) => (st2, throttleAt, none)

/-- Candle model (core/data_engine/models.py); open_time in epoch ms. -/
structure Candle where
  openTime : ℤ
  openPrice : ℚ
  highPrice : ℚ
  lowPrice : ℚ
  closePrice : ℚ
  volume : ℚ
deriving DecidableEq

/-- ringAppend models deque.append on a deque with maxlen maxCandles:
append at the right, silently dropping the oldest entries on overflow. -/
def ringAppend (maxCandles : Nat) (dq : List Candle) (candle : Candle) : List Candle :=
  let grown := dq ++ [candle]
  if maxCandles < grown.length then grown.drop (grown.length - maxCandles) else grown

/-- appendCandle models CacheManager.append_candle for one existing
buffer (the dict lookup and creation of a fresh empty deque are folded
into the empty-list case). closed candles append when strictly newer
than the last entry and overwrite the last entry otherwise; forming
candles always overwrite the last entry (append when empty). -/
def appendCandle (maxCandles : Nat) (dq : List Candle) (candle : Candle)
    (closed : Bool) : List Candle :=
  if closed then
    match dq.getLast? with
    | some last =>
      if candle.openTime ≤ last.openTime then dq.dropLast ++ [candle]
      else ringAppend maxCandles dq candle
    | none => ringAppend maxCandles dq candle
  else
    match dq.getLast? with
    | some _ => dq.dropLast ++ [candle]
    | none => ringAppend maxCandles dq candle

/-- Observable effects of the engine facade setters (Qt signal emissions
and the enqueue on the provider queue, which lowercases the symbol). -/
inductive EngineAction where
  | emitSymbolChanged (symbol : String)
  | emitTimeframeChanged (timeframe : String)
  | enqueueSwitch (symbol timeframe : String)
deriving DecidableEq

/-- Facade-visible state: the SymbolState and TimeframeState values. -/
structure EngineState where
  symbol : String
  timeframe : String
deriving DecidableEq

/-- symbolStateSet models SymbolState.set: uppercase, write only on
change, return the effectively active symbol. -/
def symbolStateSet (current incoming : String) : String :=
  let s := upperStr incoming
  if s = current then current else s

/-- timeframeStateSet models TimeframeState.set: lowercase, write only on
change, return the effectively active timeframe. No validation against
any supported set is performed. -/
def timeframeStateSet (current incoming : String) : String :=
  let tf := lowerStr incoming
  if tf = current then current else tf

/-- setSymbol models CoreDataEngine.set_symbol: no-op when the normalized
value equals the previous one; otherwise emit SymbolChanged and enqueue
the switch on the provider (set_symbol_timeframe lowercases the queued
symbol). -/
def setSymbol (st : EngineState) (symbol : String) : EngineState × List EngineAction :=
  let prev := st.symbol
  let new := symbolStateSet st.symbol symbol
  if new = prev then (st, [])
  else
    ({ st with symbol := new },
     [EngineAction.emitSymbolChanged new,
      EngineAction.enqueueSwitch (lowerStr new) st.timeframe])

/-- setTimeframe models CoreDataEngine.set_timeframe: no-op when the
normalized value equals the previous one; otherwise emit
TimeframeChanged and enqueue the switch on the provider. -/
def setTimeframe (st : EngineState) (timeframe : String) : EngineState × List EngineAction :=
  let prev := st.timeframe
  let new := timeframeStateSet st.timeframe timeframe
  if new = prev then (st, [])
  else
    ({ st with timeframe := new },
     [EngineAction.emitTimeframeChanged new,
      EngineAction.enqueueSwitch (lowerStr st.symbol) new])

/-- Timeframes offered by the UI (ui/panels/chart_panel.py); the engine
itself never consults any such list. -/
def supportedTimeframes : List String := ["1m", "5m", "15m", "1h", "4h", "1D"]

/-- Queued (symbol, timeframe) change request. -/
structure Request where
  symbol : String
  timeframe : String
deriving DecidableEq

/-- Router task state across cycles: the active key (None before the
first cycle) and whether trade/kline/depth stream tasks are running. -/
structure RouterState where
  currentSymbol : Option String
  currentTimeframe : Option String
  hasStreams : Bool
deriving DecidableEq

/-- Effects one router cycle can perform, in order. startTickerLoop is
the ticker-array task started once in _main; it is included so that its
absence from router cycles is expressible. -/
inductive RouterAction where
  | cancelStreams : RouterAction
  | bootstrap (symbol timeframe : String) : RouterAction
  | startTrade (symbol : String) : RouterAction
  | startKline (symbol timeframe : String) : RouterAction
  | startDepth (symbol : String) : RouterAction
  | startTickerLoop : RouterAction
deriving DecidableEq

/-- isBootstrap recognizes the REST bootstrap action. -/
def RouterAction.isBootstrap : RouterAction → Bool
  | RouterAction.bootstrap _ _ => true
  | _ => false

/-- isStartTrade recognizes the trade-stream start action. -/
def RouterAction.isStartTrade : RouterAction → Bool
  | RouterAction.startTrade _ => true
  | _ => false

/-- isStartKline recognizes the kline-stream start action. -/
def RouterAction.isStartKline : RouterAction → Bool
  | RouterAction.startKline _ _ => true
  | _ => false

/-- isStartDepth recognizes the depth-stream start action. -/
def RouterAction.isStartDepth : RouterAction → Bool
  | RouterAction.startDepth _ => true
  | _ => false

/-- coalesce models the drain loop of _symbol_router: the blocking get
yields first, then each queued request overwrites it, leaving the last. -/
def coalesce (first : Request) (queued : List Request) : Request :=
  queued.foldl (fun _ r => r) first

/-- routerCycle models one wake-up of BinanceProvider._symbol_router: drain
the queue down to the last request; if it equals the active key, do
nothing; otherwise cancel the running trade/kline/depth tasks (if any),
run the REST bootstrap (_prefetch), and start fresh trade, kline and
depth stream tasks for the new key. The ticker task never appears. -/
def routerCycle (st : RouterState) (first : Request) (queued : List Request) :
    RouterState × List RouterAction :=
  let req := coalesce first queued
  if some req.symbol = st.currentSymbol ∧ some req.timeframe = st.currentTimeframe then
    (st, [])
  else
    ({ currentSymbol := some req.symbol, currentTimeframe := some req.timeframe,
       hasStreams := true },
     (if st.hasStreams then [RouterAction.cancelStreams] else []) ++
       [RouterAction.bootstrap req.symbol req.timeframe,
        RouterAction.startTrade req.symbol,
        RouterAction.startKline req.symbol req.timeframe,
        RouterAction.startDepth req.symbol])

/-- TickerData model (data_engine/models.py). -/
structure TickerData where
  symbol : String
  lastPrice : ℚ
  pctChange : ℚ
  volume : ℚ
  bid : ℚ
  ask : ℚ
deriving DecidableEq

/-- Fixed watch-list of BinanceProvider. -/
def WATCHLIST : List String :=
  ["BTCUSDT", "ETHUSDT", "USDTUSDC", "XRPUSDT", "BNBUSDT",
   "USDCUSDT", "SOLUSDT", "TRXUSDT", "DOGEUSDT", "ADAUSDT"]

/-- One element of the !ticker@arr frame, fields "s", "c", "P", "v",
"b", "a", already as numbers (the float() conversions in the source
cannot fail on these). -/
structure RawTickerItem where
  s : String
  c : ℚ
  P : ℚ
  v : ℚ
  b : ℚ
  a : ℚ
deriving DecidableEq

/-- parseTickerArr models BinanceProvider._parse_ticker_arr: keep only
watch-list symbols, in arrival order. -/
def parseTickerArr (payload : List RawTickerItem) : List TickerData :=
  payload.filterMap (fun item =>
    if WATCHLIST.contains item.s then
      some { symbol := item.s, lastPrice := item.c, pctChange := item.P,
             volume := item.v, bid := item.b, ask := item.a }
    else none)

/-- tickerRun models the message loop of BinanceProvider._ticker_loop over
a list of (arrival instant in ms, frame) pairs, starting from the given
_last_ticker_emit value: a TickersEvent is emitted only when the parsed
list is non-empty and at least 0.4 s (400 ms) passed since the previous
emission, and the emission origin is then reset to the arrival instant.
Returns the emissions as (instant, tickers) pairs. -/
def tickerRun (lastEmit : ℤ) (frames : List (ℤ × List RawTickerItem)) :
    List (ℤ × List TickerData) :=
  match frames with
  | [] => []
  | (now, frame) :: rest =>
    let tickers := parseTickerArr frame
    if tickers ≠ [] ∧ 400 ≤ now - lastEmit then
      (now, tickers) :: tickerRun now rest
    else
      tickerRun lastEmit rest

/-! Basic association-list (Python dict) lemmas. -/

namespace Book

theorem lookup_eq_none_of_not_mem_keys {b : Book} {price : ℚ}
    (h : price ∉ b.map Prod.fst) : b.lookup price = none := by
  induction b with
  | nil => rfl
  | cons e rest ih =>
    simp only [List.map_cons, List.mem_cons, not_or] at h
    rw [lookup, if_neg (fun hc => h.1 hc.symm), ih h.2]

theorem lookup_pop_self {b : Book} {price : ℚ} (h : b.keysNodup) :
    (b.pop price).lookup price = none := by
  induction b with
  | nil => rfl
  | cons e rest ih =>
    simp only [keysNodup, List.map_cons, List.nodup_cons] at h
    by_cases he : e.1 = price
    · simp only [pop, if_pos he]
      exact lookup_eq_none_of_not_mem_keys (he ▸ h.1)
    · simp only [pop, if_neg he, lookup, ih h.2]

theorem lookup_pop_ne {b : Book} {p1 p2 : ℚ} (h : p1 ≠ p2) :
    (b.pop p1).lookup p2 = b.lookup p2 := by
  induction b with
  | nil => rfl
  | cons e rest ih =>
    by_cases he : e.1 = p1
    · simp only [pop, if_pos he, lookup, if_neg (he ▸ h)]
    · simp only [pop, if_neg he, lookup, ih]

theorem lookup_upsert_self (b : Book) (price qty : ℚ) :
    (b.upsert price qty).lookup price = some qty := by
  induction b with
  | nil => simp [upsert, lookup]
  | cons e rest ih =>
    by_cases he : e.1 = price
    · simp [upsert, if_pos he, lookup]
    · simp only [upsert, if_neg he, lookup, if_neg he, ih]

theorem lookup_upsert_ne {b : Book} {p1 p2 : ℚ} (qty : ℚ) (h : p1 ≠ p2) :
    (b.upsert p1 qty).lookup p2 = b.lookup p2 := by
  induction b with
  | nil => simp [upsert, lookup, if_neg h]
  | cons e rest ih =>
    by_cases he : e.1 = p1
    · simp only [upsert, if_pos he, lookup, if_neg h, if_neg (he ▸ h)]
    · simp only [upsert, if_neg he, lookup, ih]

theorem mem_pop {b : Book} {price : ℚ} {e : Level} (h : e ∈ b.pop price) : e ∈ b := by
  induction b with
  | nil => exact absurd h (List.not_mem_nil e)
  | cons f rest ih =>
    by_cases hf : f.1 = price
    · simp only [pop, if_pos hf] at h
      exact List.mem_cons_of_mem f h
    · simp only [pop, if_neg hf, List.mem_cons] at h
      rcases h with h | h
      · exact h ▸ List.mem_cons_self f rest
      · exact List.mem_cons_of_mem f (ih h)

theorem mem_upsert {b : Book} {price qty : ℚ} {e : Level}
    (h : e ∈ b.upsert price qty) : e ∈ b ∨ e = (price, qty) := by
  induction b with
  | nil =>
    simp only [upsert, List.mem_singleton] at h
    exact Or.inr h
  | cons f rest ih =>
    by_cases hf : f.1 = price
    · simp only [upsert, if_pos hf, List.mem_cons] at h
      rcases h with h | h
      · exact Or.inr h
      · exact Or.inl (List.mem_cons_of_mem f h)
    · simp only [upsert, if_neg hf, List.mem_cons] at h
      rcases h with h | h
      · exact Or.inl (h ▸ List.mem_cons_self f rest)
      · rcases ih h with h2 | h2
        · exact Or.inl (List.mem_cons_of_mem f h2)
        · exact Or.inr h2

theorem mem_keys_upsert {b : Book} {price qty x : ℚ}
    (h : x ∈ (b.upsert price qty).map Prod.fst) :
    x ∈ b.map Prod.fst ∨ x = price := by
  simp only [List.mem_map] at h
  rcases h with ⟨e, he, hx⟩
  rcases mem_upsert he with h2 | h2
  · exact Or.inl (hx ▸ List.mem_map_of_mem Prod.fst h2)
  · right
    rw [← hx, h2]

theorem keysNodup_pop {b : Book} (price : ℚ) (h : b.keysNodup) :
    (b.pop price).keysNodup := by
  induction b with
  | nil => exact h
  | cons e rest ih =>
    simp only [keysNodup, List.map_cons, List.nodup_cons] at h
    by_cases he : e.1 = price
    · simpa only [keysNodup, pop, if_pos he] using h.2
    · simp only [keysNodup, pop, if_neg he, List.map_cons, List.nodup_cons]
      refine ⟨fun hmem => ?_, ih h.2⟩
      simp only [List.mem_map] at hmem
      rcases hmem with ⟨f, hf, hfx⟩
      exact h.1 (hfx ▸ List.mem_map_of_mem Prod.fst (mem_pop hf))

theorem keysNodup_upsert {b : Book} (price qty : ℚ) (h : b.keysNodup) :
    (b.upsert price qty).keysNodup := by
  induction b with
  | nil => simp [keysNodup, upsert]
  | cons e rest ih =>
    simp only [keysNodup, List.map_cons, List.nodup_cons] at h
    by_cases he : e.1 = price
    · simp only [keysNodup, upsert, if_pos he, List.map_cons, List.nodup_cons]
      exact ⟨he ▸ h.1, h.2⟩
    · simp only [keysNodup, upsert, if_neg he, List.map_cons, List.nodup_cons]
      refine ⟨fun hmem => ?_, ih h.2⟩
      rcases mem_keys_upsert hmem with h2 | h2
      · exact h.1 h2
      · exact he h2

theorem allPos_pop {b : Book} (price : ℚ) (h : b.allPos) : (b.pop price).allPos :=
  fun e he => h e (mem_pop he)

theorem allPos_upsert {b : Book} {price qty : ℚ} (hq : 0 < qty) (h : b.allPos) :
    (b.upsert price qty).allPos := by
  intro e he
  rcases mem_upsert he with h2 | h2
  · exact h e h2
  · rw [h2]
    exact hq

end Book

/-! Sorting lemmas for the emitted level lists. -/

instance : IsTotal Level (fun e f : Level => e.1 ≤ f.1) := ⟨fun a b => le_total a.1 b.1⟩

instance : IsTrans Level (fun e f : Level => e.1 ≤ f.1) := ⟨fun _ _ _ => le_trans⟩

instance : IsTotal Level (fun e f : Level => f.1 ≤ e.1) := ⟨fun a b => le_total b.1 a.1⟩

instance : IsTrans Level (fun e f : Level => f.1 ≤ e.1) := ⟨fun _ _ _ h1 h2 => le_trans h2 h1⟩

theorem Book.sortAsc_perm (b : Book) : b.sortAsc.Perm b := List.perm_insertionSort _ b

theorem Book.sortDesc_perm (b : Book) : b.sortDesc.Perm b := List.perm_insertionSort _ b

theorem Book.sortAsc_sorted (b : Book) : b.sortAsc.Pairwise (fun e f => e.1 ≤ f.1) :=
  List.sorted_insertionSort _ b

theorem Book.sortDesc_sorted (b : Book) : b.sortDesc.Pairwise (fun e f => f.1 ≤ e.1) :=
  List.sorted_insertionSort _ b

theorem Book.pairwise_keys_ne {b : Book} (h : b.keysNodup) :
    b.Pairwise (fun e f => e.1 ≠ f.1) := List.pairwise_map.mp h

theorem Book.keysNodup_of_perm {a b : Book} (hp : a.Perm b) (h : a.keysNodup) : b.keysNodup :=
  ((hp.map Prod.fst).nodup_iff).mp h

theorem Book.sortAsc_strict {b : Book} (h : b.keysNodup) :
    b.sortAsc.Pairwise (fun e f => e.1 < f.1) := by
  have hn : b.sortAsc.keysNodup := keysNodup_of_perm (sortAsc_perm b).symm h
  exact ((sortAsc_sorted b).and (pairwise_keys_ne hn)).imp
    (fun hp => lt_of_le_of_ne hp.1 hp.2)

theorem Book.sortDesc_strict {b : Book} (h : b.keysNodup) :
    b.sortDesc.Pairwise (fun e f => f.1 < e.1) := by
  have hn : b.sortDesc.keysNodup := keysNodup_of_perm (sortDesc_perm b).symm h
  exact ((sortDesc_sorted b).and (pairwise_keys_ne hn)).imp
    (fun hp => lt_of_le_of_ne hp.1 (Ne.symm hp.2))

/-! Lemmas on applying one diff frame's change lists. -/

theorem keysNodup_applyChange {b : Book} (e : Level) (h : b.keysNodup) :
    (applyChange b e).keysNodup := by
  by_cases h0 : e.2 = 0
  · simpa [applyChange, h0] using Book.keysNodup_pop e.1 h
  · simpa [applyChange, h0] using Book.keysNodup_upsert e.1 e.2 h

theorem keysNodup_applyChanges {b : Book} (cs : List Level) (h : b.keysNodup) :
    (applyChanges b cs).keysNodup := by
  induction cs generalizing b with
  | nil => exact h
  | cons c rest ih => exact ih (keysNodup_applyChange c h)

theorem allPos_applyChange {b : Book} {e : Level} (he : 0 ≤ e.2) (h : b.allPos) :
    (applyChange b e).allPos := by
  by_cases h0 : e.2 = 0
  · simpa [applyChange, h0] using Book.allPos_pop e.1 h
  · have hpos : 0 < e.2 := lt_of_le_of_ne he (Ne.symm h0)
    simpa [applyChange, h0] using Book.allPos_upsert hpos h

theorem allPos_applyChanges {b : Book} {cs : List Level}
    (hcs : ∀ e ∈ cs, 0 ≤ e.2) (h : b.allPos) : (applyChanges b cs).allPos := by
  induction cs generalizing b with
  | nil => exact h
  | cons c rest ih =>
    exact ih (fun e he => hcs e (List.mem_cons_of_mem c he))
      (allPos_applyChange (hcs c (List.mem_cons_self c rest)) h)

theorem lookup_applyChange_ne {b : Book} {e : Level} {price : ℚ} (h : e.1 ≠ price) :
    (applyChange b e).lookup price = b.lookup price := by
  by_cases h0 : e.2 = 0
  · simpa [applyChange, h0] using Book.lookup_pop_ne h
  · simpa [applyChange, h0] using Book.lookup_upsert_ne e.2 h

theorem lookup_applyChanges_not_mem {b : Book} {cs : List Level} {price : ℚ}
    (h : price ∉ cs.map Prod.fst) :
    (applyChanges b cs).lookup price = b.lookup price := by
  induction cs generalizing b with
  | nil => rfl
  | cons c rest ih =>
    simp only [List.map_cons, List.mem_cons, not_or] at h
    have hstep : applyChanges b (c :: rest) = applyChanges (applyChange b c) rest := rfl
    rw [hstep, ih h.2, lookup_applyChange_ne (fun hc => h.1 hc.symm)]

theorem lookup_applyChanges_mem {b : Book} {cs : List Level} {price qty : ℚ}
    (hb : b.keysNodup) (hcs : (cs.map Prod.fst).Nodup) (hmem : (price, qty) ∈ cs) :
    (applyChanges b cs).lookup price = if qty = 0 then none else some qty := by
  induction cs generalizing b with
  | nil => cases hmem
  | cons c rest ih =>
    simp only [List.map_cons, List.nodup_cons] at hcs
    have hstep : applyChanges b (c :: rest) = applyChanges (applyChange b c) rest := rfl
    rcases List.mem_cons.mp hmem with hc | hc
    · have hkeys : price ∉ rest.map Prod.fst := by
        have h1 := hcs.1
        rw [← hc] at h1
        exact h1
      rw [hstep, lookup_applyChanges_not_mem hkeys, ← hc]
      by_cases h0 : qty = 0
      · simp [applyChange, h0, Book.lookup_pop_self hb]
      · simp [applyChange, h0, Book.lookup_upsert_self]
    · rw [hstep]
      exact ih (keysNodup_applyChange c hb) hcs.2 hc

/-! Characterization of the three outcomes of applyDepthDiff. -/

theorem applyDepthDiff_accept {st : DepthState} {p : DiffPayload} {fu lu : ℤ}
    (hU : p.firstId = some fu) (hu : p.lastId = some lu)
    (hfu : fu ≠ 0) (hlu : lu ≠ 0)
    (hfresh : st.lastUpdateId < lu) (hgap : fu ≤ st.lastUpdateId + 1000) :
    applyDepthDiff st (some p) =
      ({ lastUpdateId := lu, bids := applyChanges st.bids p.bids,
         asks := applyChanges st.asks p.asks },
       DiffResult.applied ((applyChanges st.bids p.bids).sortDesc.take 50)
         ((applyChanges st.asks p.asks).sortAsc.take 50) lu) := by
  rcases p with ⟨pU, pu, pb, pa⟩
  obtain rfl : pU = some fu := hU
  obtain rfl : pu = some lu := hu
  simp only [applyDepthDiff]
  rw [if_neg (by omega), if_neg (by omega), if_neg (by omega)]

theorem applyDepthDiff_stale {st : DepthState} {p : DiffPayload} {fu lu : ℤ}
    (hU : p.firstId = some fu) (hu : p.lastId = some lu)
    (hfu : fu ≠ 0) (hlu : lu ≠ 0)
    (hsnap : st.lastUpdateId ≠ 0) (hstale : lu ≤ st.lastUpdateId) :
    applyDepthDiff st (some p) = (st, DiffResult.dropped) := by
  rcases p with ⟨pU, pu, pb, pa⟩
  obtain rfl : pU = some fu := hU
  obtain rfl : pu = some lu := hu
  simp only [applyDepthDiff]
  rw [if_neg (by omega), if_pos (by omega)]

theorem applyDepthDiff_gap {st : DepthState} {p : DiffPayload} {fu lu : ℤ}
    (hU : p.firstId = some fu) (hu : p.lastId = some lu)
    (hfu : fu ≠ 0) (hlu : lu ≠ 0)
    (hsnap : st.lastUpdateId ≠ 0) (hfresh : st.lastUpdateId < lu)
    (hgap : st.lastUpdateId + 1000 < fu) :
    applyDepthDiff st (some p) = (st, DiffResult.resyncRequested) := by
  rcases p with ⟨pU, pu, pb, pa⟩
  obtain rfl : pU = some fu := hU
  obtain rfl : pu = some lu := hu
  simp only [applyDepthDiff]
  rw [if_neg (by omega), if_neg (by omega), if_pos (by omega)]

theorem depthStep_of_not_applied {symbol : String} {st : DepthState}
    {payload : Option DiffPayload} {res : DiffResult}
    (h : applyDepthDiff st payload = (st, res))
    (hres : ∀ bl al u, res ≠ DiffResult.applied bl al u) (throttleAt now : ℤ) :
    depthStep symbol st throttleAt now payload = (st, throttleAt, none) := by
  unfold depthStep
  rw [h]
  cases res with
  | dropped => rfl
  | resyncRequested => rfl
  | applied bl al u => exact absurd rfl (hres bl al u)

theorem applyDepthDiff_state_cases (st : DepthState) (payload : Option DiffPayload) :
    (applyDepthDiff st payload).1 = st ∨
    ∃ p lu, payload = some p ∧
      (applyDepthDiff st payload).1 =
        ⟨lu, applyChanges st.bids p.bids, applyChanges st.asks p.asks⟩ := by
  match payload with
  | none => exact Or.inl rfl
  | some p =>
    rcases p with ⟨pU, pu, pb, pa⟩
    rcases pU with _ | fu
    · rcases pu with _ | lu <;> exact Or.inl rfl
    · rcases pu with _ | lu
      · exact Or.inl rfl
      · simp only [applyDepthDiff]
        split_ifs with h1 h2 h3
        · exact Or.inl rfl
        · exact Or.inl rfl
        · exact Or.inl rfl
        · exact Or.inr ⟨⟨some fu, some lu, pb, pa⟩, lu, rfl, rfl⟩

theorem Book.allPos_toDict {l : List Level} (h : ∀ e ∈ l, 0 < e.2) :
    (toDict l).allPos := by
  have haux : ∀ (xs : List Level) (acc : Book), (∀ e ∈ xs, 0 < e.2) → acc.allPos →
      (xs.foldl (fun d e => upsert d e.1 e.2) acc).allPos := by
    intro xs
    induction xs with
    | nil => exact fun acc _ hacc => hacc
    | cons x rest ih =>
      intro acc hx hacc
      exact ih _ (fun e he => hx e (List.mem_cons_of_mem x he))
        (allPos_upsert (hx x (List.mem_cons_self x rest)) hacc)
  exact haux l [] h (fun e he => absurd he (List.not_mem_nil e))

theorem Book.keysNodup_toDict (l : List Level) : (toDict l).keysNodup := by
  have haux : ∀ (xs : List Level) (acc : Book), acc.keysNodup →
      (xs.foldl (fun d e => upsert d e.1 e.2) acc).keysNodup := by
    intro xs
    induction xs with
    | nil => exact fun acc hacc => hacc
    | cons x rest ih => exact fun acc hacc => ih _ (keysNodup_upsert x.1 x.2 hacc)
  exact haux l [] List.nodup_nil

theorem mem_of_mem_posFilter {l : List Level} {e : Level}
    (h : e ∈ l.filter (fun f => 0 < f.2)) : 0 < e.2 := by
  have h2 := (List.mem_filter.mp h).2
  exact of_decide_eq_true h2

/-! C1 -/

/-- C1 counterexample: after a snapshot with last_update_id 10, the diff
frame with first_id 15 and last_id 16 (a gap in the claim's sense, since
15 > 10 + 1) is not discarded and does not trigger a resynchronization:
the replica applies it, mutating the bid map to the changed level and
advancing the cursor to 16, so the original book is not left unchanged. -/
theorem depth_gap_claim_cex :
    (applyDepthDiff ⟨10, [(100, 5)], [(101, 3)]⟩
        (some ⟨some 15, some 16, [(100, 7)], []⟩)).1 ≠ ⟨10, [(100, 5)], [(101, 3)]⟩ ∧
    (applyDepthDiff ⟨10, [(100, 5)], [(101, 3)]⟩
        (some ⟨some 15, some 16, [(100, 7)], []⟩)).2 ≠ DiffResult.resyncRequested ∧
    (applyDepthDiff ⟨10, [(100, 5)], [(101, 3)]⟩
        (some ⟨some 15, some 16, [(100, 7)], []⟩)).1.bids = [(100, 7)] ∧
    (applyDepthDiff ⟨10, [(100, 5)], [(101, 3)]⟩
        (some ⟨some 15, some 16, [(100, 7)], []⟩)).1.lastUpdateId = 16 := by
  decide

/-- C1 (amended): the gap guard fires only when first_id exceeds
last_known_id + 1000 (not + 1). Such a frame, on a replica that has
ingested a snapshot (last_known_id > 0), is discarded with a
resynchronization request, leaves the bid and ask maps and the cursor
unchanged, and causes no DepthUpdateEvent emission from the depth loop;
frames with last_known_id + 1 < first_id <= last_known_id + 1000 are
applied instead of being discarded. -/
theorem depth_gap_resync {st : DepthState} {p : DiffPayload} {fu lu : ℤ}
    (hU : p.firstId = some fu) (hu : p.lastId = some lu)
    (hfu : fu ≠ 0) (hlu : lu ≠ 0)
    (hsnap : 0 < st.lastUpdateId) (hfresh : st.lastUpdateId < lu)
    (hgap : st.lastUpdateId + 1000 < fu) :
    applyDepthDiff st (some p) = (st, DiffResult.resyncRequested) ∧
    ∀ symbol throttleAt now,
      depthStep symbol st throttleAt now (some p) = (st, throttleAt, none) := by
  have h := applyDepthDiff_gap hU hu hfu hlu (by omega) hfresh hgap
  exact ⟨h, fun symbol throttleAt now =>
    depthStep_of_not_applied h (fun bl al u h2 => DiffResult.noConfusion h2) throttleAt now⟩

/-- C1 witness: concrete instance of the amended gap behavior, with
cursor 10 and a diff frame starting at 2000. -/
theorem depth_gap_resync_witness :
    ((2000 : ℤ) ≠ 0 ∧ (2005 : ℤ) ≠ 0 ∧ (0 : ℤ) < 10 ∧ (10 : ℤ) < 2005 ∧
      (10 : ℤ) + 1000 < 2000) ∧
    (applyDepthDiff ⟨10, [(100, 5)], [(101, 3)]⟩
        (some ⟨some 2000, some 2005, [(100, 7)], []⟩) =
      (⟨10, [(100, 5)], [(101, 3)]⟩, DiffResult.resyncRequested) ∧
    ∀ symbol throttleAt now,
      depthStep symbol ⟨10, [(100, 5)], [(101, 3)]⟩ throttleAt now
          (some ⟨some 2000, some 2005, [(100, 7)], []⟩) =
        (⟨10, [(100, 5)], [(101, 3)]⟩, throttleAt, none)) :=
  ⟨⟨by decide, by decide, by decide, by decide, by decide⟩,
   depth_gap_resync rfl rfl (by decide) (by decide) (by decide) (by decide) (by decide)⟩

/-! C8 -/

/-- C8: with a snapshot already ingested (last_known_id > 0), a diff frame
whose last_id is at most the current cursor is discarded as a duplicate or
stale frame: the bid and ask maps and the cursor are unchanged and the
depth loop emits no DepthUpdateEvent for it. -/
theorem stale_diff_discarded {st : DepthState} {p : DiffPayload} {fu lu : ℤ}
    (hU : p.firstId = some fu) (hu : p.lastId = some lu)
    (hfu : fu ≠ 0) (hlu : lu ≠ 0)
    (hsnap : 0 < st.lastUpdateId) (hstale : lu ≤ st.lastUpdateId) :
    applyDepthDiff st (some p) = (st, DiffResult.dropped) ∧
    ∀ symbol throttleAt now,
      depthStep symbol st throttleAt now (some p) = (st, throttleAt, none) := by
  have h := applyDepthDiff_stale hU hu hfu hlu (by omega) hstale
  exact ⟨h, fun symbol throttleAt now =>
    depthStep_of_not_applied h (fun bl al u h2 => DiffResult.noConfusion h2) throttleAt now⟩

/-- C8 witness: after a snapshot with cursor 10, the frame with ids 5..9 is
dropped without any visible effect. -/
theorem stale_diff_discarded_witness :
    ((5 : ℤ) ≠ 0 ∧ (9 : ℤ) ≠ 0 ∧ (0 : ℤ) < 10 ∧ (9 : ℤ) ≤ 10) ∧
    (applyDepthDiff ⟨10, [(100, 5)], [(101, 3)]⟩
        (some ⟨some 5, some 9, [(100, 7)], []⟩) =
      (⟨10, [(100, 5)], [(101, 3)]⟩, DiffResult.dropped) ∧
    ∀ symbol throttleAt now,
      depthStep symbol ⟨10, [(100, 5)], [(101, 3)]⟩ throttleAt now
          (some ⟨some 5, some 9, [(100, 7)], []⟩) =
        (⟨10, [(100, 5)], [(101, 3)]⟩, throttleAt, none)) :=
  ⟨⟨by decide, by decide, by decide, by decide⟩,
   stale_diff_discarded rfl rfl (by decide) (by decide) (by decide) (by decide)⟩

/-! C2 -/

/-- C2: a fresh, contiguous diff frame applied after a snapshot is
accepted: the cursor becomes the frame's last_id, and for each changed
level (price, size) with pairwise-distinct prices, size 0 removes the
price from the corresponding side while any other size stores exactly
that size under the price. -/
theorem contiguous_diff_applied {st : DepthState} {p : DiffPayload} {fu lu : ℤ}
    (hU : p.firstId = some fu) (hu : p.lastId = some lu)
    (hfu : fu ≠ 0) (hlu : lu ≠ 0)
    (hsnap : 0 < st.lastUpdateId) (hfresh : st.lastUpdateId < lu)
    (hcontig : fu ≤ st.lastUpdateId + 1)
    (hnb : st.bids.keysNodup) (hna : st.asks.keysNodup)
    (hpb : (p.bids.map Prod.fst).Nodup) (hpa : (p.asks.map Prod.fst).Nodup) :
    (applyDepthDiff st (some p)).1.lastUpdateId = lu ∧
    (∃ bl al, (applyDepthDiff st (some p)).2 = DiffResult.applied bl al lu) ∧
    (∀ price qty, (price, qty) ∈ p.bids →
      (applyDepthDiff st (some p)).1.bids.lookup price =
        if qty = 0 then none else some qty) ∧
    (∀ price qty, (price, qty) ∈ p.asks →
      (applyDepthDiff st (some p)).1.asks.lookup price =
        if qty = 0 then none else some qty) := by
  have h := applyDepthDiff_accept hU hu hfu hlu hfresh (by omega)
  rw [h]
  exact ⟨rfl, ⟨_, _, rfl⟩,
    fun price qty hmem => lookup_applyChanges_mem hnb hpb hmem,
    fun price qty hmem => lookup_applyChanges_mem hna hpa hmem⟩

/-- C2 witness: the spec scenario; snapshot bids (100, 5), asks (101, 3),
cursor 10, then the diff 11..11 deleting price 100 empties the bid map and
sets the cursor to 11. -/
theorem contiguous_diff_applied_witness :
    ((11 : ℤ) ≠ 0 ∧ (0 : ℤ) < 10 ∧ (10 : ℤ) < 11 ∧ (11 : ℤ) ≤ 10 + 1 ∧
      (applySnapshot ⟨[(100, 5)], [(101, 3)], 10⟩).bids.keysNodup) ∧
    ((applyDepthDiff (applySnapshot ⟨[(100, 5)], [(101, 3)], 10⟩)
        (some ⟨some 11, some 11, [(100, 0)], []⟩)).1.lastUpdateId = 11 ∧
      (∃ bl al, (applyDepthDiff (applySnapshot ⟨[(100, 5)], [(101, 3)], 10⟩)
        (some ⟨some 11, some 11, [(100, 0)], []⟩)).2 = DiffResult.applied bl al 11) ∧
      (∀ price qty, (price, qty) ∈ [((100 : ℚ), (0 : ℚ))] →
        (applyDepthDiff (applySnapshot ⟨[(100, 5)], [(101, 3)], 10⟩)
          (some ⟨some 11, some 11, [(100, 0)], []⟩)).1.bids.lookup price =
            if qty = 0 then none else some qty) ∧
      (∀ price qty, (price, qty) ∈ ([] : List Level) →
        (applyDepthDiff (applySnapshot ⟨[(100, 5)], [(101, 3)], 10⟩)
          (some ⟨some 11, some 11, [(100, 0)], []⟩)).1.asks.lookup price =
            if qty = 0 then none else some qty)) ∧
    (applyDepthDiff (applySnapshot ⟨[(100, 5)], [(101, 3)], 10⟩)
        (some ⟨some 11, some 11, [(100, 0)], []⟩)).1.bids = [] :=
  ⟨⟨by decide, by decide, by decide, by decide, by decide⟩,
   contiguous_diff_applied rfl rfl (by decide) (by decide) (by decide) (by decide)
     (by decide) (by decide) (by decide) (by decide) (by decide),
   by decide⟩

/-! C3 -/

/-- C3 counterexample: an accepted diff frame carrying a negative size is
stored as-is, so after a snapshot and one accepted diff the bid map holds
an entry with size below zero; the claimed invariant fails. -/
theorem books_positive_cex :
    ¬ (applyDepthDiff ⟨10, [(100, 5)], [(101, 3)]⟩
        (some ⟨some 11, some 11, [(99, -1)], []⟩)).1.bids.allPos ∧
    (applyDepthDiff ⟨10, [(100, 5)], [(101, 3)]⟩
        (some ⟨some 11, some 11, [(99, -1)], []⟩)).2 ≠ DiffResult.dropped ∧
    (applyDepthDiff ⟨10, [(100, 5)], [(101, 3)]⟩
        (some ⟨some 11, some 11, [(99, -1)], []⟩)).2 ≠ DiffResult.resyncRequested ∧
    (applyDepthDiff ⟨10, [(100, 5)], [(101, 3)]⟩
        (some ⟨some 11, some 11, [(99, -1)], []⟩)).1.bids = [(100, 5), (99, -1)] := by
  decide

/-- C3 (amended): applying a depth snapshot never stores a level with
size at most 0 (zero or negative sizes are filtered out), and applying
any diff frame preserves strict positivity of both books provided every
size in the frame's change lists is nonnegative (zero-size levels are
removals and are never stored; a negative size would be stored as-is,
but the upstream never produces one). -/
theorem books_positive (snap : RawSnapshot) (st : DepthState)
    (payload : Option DiffPayload)
    (hb : st.bids.allPos) (ha : st.asks.allPos)
    (hpb : ∀ p, payload = some p → ∀ e ∈ p.bids, 0 ≤ e.2)
    (hpa : ∀ p, payload = some p → ∀ e ∈ p.asks, 0 ≤ e.2) :
    ((applySnapshot snap).bids.allPos ∧ (applySnapshot snap).asks.allPos) ∧
    ((applyDepthDiff st payload).1.bids.allPos ∧
      (applyDepthDiff st payload).1.asks.allPos) := by
  refine ⟨⟨Book.allPos_toDict (fun e he => mem_of_mem_posFilter he),
           Book.allPos_toDict (fun e he => mem_of_mem_posFilter he)⟩, ?_⟩
  rcases applyDepthDiff_state_cases st payload with h | ⟨p, lu, hpay, h⟩
  · rw [h]
    exact ⟨hb, ha⟩
  · rw [h]
    exact ⟨allPos_applyChanges (hpb p hpay) hb, allPos_applyChanges (hpa p hpay) ha⟩

/-- C3 witness: concrete snapshot with a zero-size ask filtered out, and a
concrete accepted diff with nonnegative sizes keeping both books strictly
positive. -/
theorem books_positive_witness :
    (((⟨10, [(100, 5)], [(101, 3)]⟩ : DepthState)).bids.allPos ∧
      (∀ e ∈ [((100 : ℚ), (0 : ℚ)), (99, 2)], (0 : ℚ) ≤ e.2)) ∧
    (((applySnapshot ⟨[(100, 5), (98, 0)], [(101, 3)], 10⟩).bids.allPos ∧
       (applySnapshot ⟨[(100, 5), (98, 0)], [(101, 3)], 10⟩).asks.allPos) ∧
     ((applyDepthDiff ⟨10, [(100, 5)], [(101, 3)]⟩
          (some ⟨some 11, some 12, [(100, 0), (99, 2)], []⟩)).1.bids.allPos ∧
      (applyDepthDiff ⟨10, [(100, 5)], [(101, 3)]⟩
          (some ⟨some 11, some 12, [(100, 0), (99, 2)], []⟩)).1.asks.allPos)) :=
  ⟨⟨by decide, by decide⟩,
   books_positive ⟨[(100, 5), (98, 0)], [(101, 3)], 10⟩ ⟨10, [(100, 5)], [(101, 3)]⟩
     (some ⟨some 11, some 12, [(100, 0), (99, 2)], []⟩)
     (by decide) (by decide)
     (fun p hp => by
       cases hp
       exact fun e he => by
         rcases List.mem_cons.mp he with h | h
         · rw [h]
         · rcases List.mem_cons.mp h with h2 | h2
           · rw [h2]
             decide
           · exact absurd h2 (List.not_mem_nil e))
     (fun p hp => by
       cases hp
       exact fun e he => absurd he (List.not_mem_nil e))⟩

/-! C6 -/

/-- C6: set_symbol normalizes its argument to uppercase; when the
normalized value equals the current symbol it is a no-op (no event, no
state change, no enqueue), otherwise it updates the symbol state, emits
SymbolChanged with the normalized symbol and enqueues a switch on the
provider. -/
theorem setSymbol_spec (st : EngineState) (s : String) :
    (upperStr s = st.symbol → setSymbol st s = (st, [])) ∧
    (upperStr s ≠ st.symbol →
      setSymbol st s =
        ({ st with symbol := upperStr s },
         [EngineAction.emitSymbolChanged (upperStr s),
          EngineAction.enqueueSwitch (lowerStr (upperStr s)) st.timeframe])) := by
  constructor
  · intro h
    simp [setSymbol, symbolStateSet, h]
  · intro h
    simp [setSymbol, symbolStateSet, h]

/-- C6 witness: the spec scenario; with active symbol BTCUSDT, calling
set_symbol with the lowercase string ethusdt emits
SymbolChanged ETHUSDT and enqueues a switch, and a second call with
ETHUSDT does nothing. -/
theorem setSymbol_spec_witness :
    (upperStr "ethusdt" ≠ "BTCUSDT" ∧
      setSymbol ⟨"BTCUSDT", "1m"⟩ "ethusdt" =
        (⟨upperStr "ethusdt", "1m"⟩,
         [EngineAction.emitSymbolChanged (upperStr "ethusdt"),
          EngineAction.enqueueSwitch (lowerStr (upperStr "ethusdt")) "1m"])) ∧
    (upperStr "ETHUSDT" = "ETHUSDT" ∧
      setSymbol ⟨"ETHUSDT", "1m"⟩ "ETHUSDT" = (⟨"ETHUSDT", "1m"⟩, [])) ∧
    upperStr "ethusdt" = "ETHUSDT" :=
  ⟨⟨by decide, (setSymbol_spec ⟨"BTCUSDT", "1m"⟩ "ethusdt").2 (by decide)⟩,
   ⟨by decide, (setSymbol_spec ⟨"ETHUSDT", "1m"⟩ "ETHUSDT").1 (by decide)⟩,
   by decide⟩

/-! C4 -/

/-- C4 counterexample: set_timeframe with the unsupported value 2x is not
rejected: it updates the timeframe state to 2x, emits TimeframeChanged
and enqueues a switch on the provider. -/
theorem setTimeframe_validation_cex :
    supportedTimeframes.contains "2x" = false ∧
    setTimeframe ⟨"BTCUSDT", "1m"⟩ "2x" =
      (⟨"BTCUSDT", "2x"⟩,
       [EngineAction.emitTimeframeChanged "2x",
        EngineAction.enqueueSwitch "btcusdt" "2x"]) ∧
    (setTimeframe ⟨"BTCUSDT", "1m"⟩ "2x").1 ≠ ⟨"BTCUSDT", "1m"⟩ ∧
    (setTimeframe ⟨"BTCUSDT", "1m"⟩ "2x").2 ≠ [] := by
  decide

/-- C4 (amended): set_timeframe performs no validation of the requested
timeframe: any value whose lowercased form differs from the current
timeframe, supported or not, updates the state, emits TimeframeChanged
and enqueues a switch on the provider; only a value equal to the current
timeframe after lowercasing is a no-op. -/
theorem setTimeframe_spec (st : EngineState) (tf : String) :
    (lowerStr tf = st.timeframe → setTimeframe st tf = (st, [])) ∧
    (lowerStr tf ≠ st.timeframe →
      setTimeframe st tf =
        ({ st with timeframe := lowerStr tf },
         [EngineAction.emitTimeframeChanged (lowerStr tf),
          EngineAction.enqueueSwitch (lowerStr st.symbol) (lowerStr tf)])) := by
  constructor
  · intro h
    simp [setTimeframe, timeframeStateSet, h]
  · intro h
    simp [setTimeframe, timeframeStateSet, h]

/-- C4 witness: the unsupported value 2x updates state and emits, while
the value 1M lowercases to the already-active 1m and is a no-op. -/
theorem setTimeframe_spec_witness :
    (lowerStr "2x" ≠ "1m" ∧
      setTimeframe ⟨"BTCUSDT", "1m"⟩ "2x" =
        (⟨"BTCUSDT", lowerStr "2x"⟩,
         [EngineAction.emitTimeframeChanged (lowerStr "2x"),
          EngineAction.enqueueSwitch (lowerStr "BTCUSDT") (lowerStr "2x")])) ∧
    (lowerStr "1M" = "1m" ∧
      setTimeframe ⟨"BTCUSDT", "1m"⟩ "1M" = (⟨"BTCUSDT", "1m"⟩, [])) :=
  ⟨⟨by decide, (setTimeframe_spec ⟨"BTCUSDT", "1m"⟩ "2x").2 (by decide)⟩,
   ⟨by decide, (setTimeframe_spec ⟨"BTCUSDT", "1m"⟩ "1M").1 (by decide)⟩⟩

/-! C7 -/

theorem mem_of_getLast_eq_some {α : Type _} {l : List α} {a : α}
    (h : l.getLast? = some a) : a ∈ l := by
  rcases List.mem_getLast?_eq_getLast h with ⟨hne, rfl⟩
  exact List.getLast_mem hne

theorem openTime_le_getLast {l : List Candle} {last : Candle}
    (hs : l.Pairwise (fun a b => a.openTime < b.openTime))
    (hl : l.getLast? = some last) :
    ∀ a ∈ l, a.openTime ≤ last.openTime := by
  induction l with
  | nil => cases hl
  | cons x rest ih =>
    intro a ha
    rcases List.mem_cons.mp ha with rfl | hmem
    · cases rest with
      | nil =>
        have hx : a = last := by simpa using hl
        rw [hx]
      | cons y ys =>
        have hl2 : (y :: ys).getLast? = some last := by
          rw [← List.getLast?_cons_cons (a := a)]
          exact hl
        exact le_of_lt
          ((List.pairwise_cons.mp hs).1 last (mem_of_getLast_eq_some hl2))
    · cases rest with
      | nil => cases hmem
      | cons y ys =>
        have hl2 : (y :: ys).getLast? = some last := by
          rw [← List.getLast?_cons_cons (a := x)]
          exact hl
        exact ih (List.pairwise_cons.mp hs).2 hl2 a hmem

/-- C7: on a non-empty candle buffer, append_candle with closed true and
an open_time strictly above the last entry's appends (a plain append
while below capacity, ring-append otherwise); with closed true and
open_time at most the last entry's it overwrites the last entry; with
closed false it overwrites the last entry; and an append never breaks
the strictly-increasing open_time ordering of the buffer. -/
theorem appendCandle_spec (maxCandles : Nat) (dq : List Candle)
    (candle last : Candle) (hlast : dq.getLast? = some last) :
    (last.openTime < candle.openTime →
      appendCandle maxCandles dq candle true = ringAppend maxCandles dq candle) ∧
    (last.openTime < candle.openTime → dq.length < maxCandles →
      appendCandle maxCandles dq candle true = dq ++ [candle]) ∧
    (candle.openTime ≤ last.openTime →
      appendCandle maxCandles dq candle true = dq.dropLast ++ [candle]) ∧
    (appendCandle maxCandles dq candle false = dq.dropLast ++ [candle]) ∧
    (dq.Pairwise (fun a b => a.openTime < b.openTime) →
      last.openTime < candle.openTime →
      (appendCandle maxCandles dq candle true).Pairwise
        (fun a b => a.openTime < b.openTime)) ∧
    (0 < maxCandles → appendCandle maxCandles [] candle false = [candle]) := by
  have happend : ∀ h : last.openTime < candle.openTime,
      appendCandle maxCandles dq candle true = ringAppend maxCandles dq candle := by
    intro h
    simp [appendCandle, hlast, not_le.mpr h]
  refine ⟨happend, ?_, ?_, ?_, ?_, ?_⟩
  · intro h hroom
    rw [happend h, ringAppend]
    have hlen : (dq ++ [candle]).length = dq.length + 1 := by simp
    rw [if_neg (by omega)]
  · intro h
    simp [appendCandle, hlast, h]
  · simp [appendCandle, hlast]
  · intro hsort h
    rw [happend h, ringAppend]
    have hg : (dq ++ [candle]).Pairwise (fun a b => a.openTime < b.openTime) := by
      refine List.pairwise_append.mpr ⟨hsort, by simp, ?_⟩
      intro a ha b hb
      rw [List.mem_singleton.mp hb]
      exact lt_of_le_of_lt (openTime_le_getLast hsort hlast a ha) h
    by_cases hc : maxCandles < (dq ++ [candle]).length
    · rw [if_pos hc]
      exact hg.sublist (List.drop_sublist _ _)
    · rw [if_neg hc]
      exact hg
  · intro hcap
    cases maxCandles with
    | zero => exact absurd hcap (lt_irrefl 0)
    | succ n => rfl

/-- C7 witness: buffer with open_times 5 and 10; a closed candle at 20
appends, a closed corrected candle at 10 overwrites the last entry, a
forming candle overwrites the last entry, and the append keeps the
buffer strictly increasing. -/
theorem appendCandle_spec_witness :
    ([⟨5, 1, 1, 1, 1, 1⟩, ⟨10, 1, 1, 1, 1, 1⟩] : List Candle).getLast? =
        some ⟨10, 1, 1, 1, 1, 1⟩ ∧
    appendCandle 1200 [⟨5, 1, 1, 1, 1, 1⟩, ⟨10, 1, 1, 1, 1, 1⟩] ⟨20, 1, 1, 1, 1, 1⟩ true =
      [⟨5, 1, 1, 1, 1, 1⟩, ⟨10, 1, 1, 1, 1, 1⟩] ++ [⟨20, 1, 1, 1, 1, 1⟩] ∧
    appendCandle 1200 [⟨5, 1, 1, 1, 1, 1⟩, ⟨10, 1, 1, 1, 1, 1⟩] ⟨10, 2, 2, 2, 2, 2⟩ true =
      ([⟨5, 1, 1, 1, 1, 1⟩, ⟨10, 1, 1, 1, 1, 1⟩] : List Candle).dropLast ++
        [⟨10, 2, 2, 2, 2, 2⟩] ∧
    appendCandle 1200 [⟨5, 1, 1, 1, 1, 1⟩, ⟨10, 1, 1, 1, 1, 1⟩] ⟨10, 3, 3, 3, 3, 3⟩ false =
      ([⟨5, 1, 1, 1, 1, 1⟩, ⟨10, 1, 1, 1, 1, 1⟩] : List Candle).dropLast ++
        [⟨10, 3, 3, 3, 3, 3⟩] ∧
    (appendCandle 1200 [⟨5, 1, 1, 1, 1, 1⟩, ⟨10, 1, 1, 1, 1, 1⟩] ⟨20, 1, 1, 1, 1, 1⟩
        true).Pairwise (fun a b => a.openTime < b.openTime) :=
  ⟨rfl,
   (appendCandle_spec 1200 [⟨5, 1, 1, 1, 1, 1⟩, ⟨10, 1, 1, 1, 1, 1⟩]
     ⟨20, 1, 1, 1, 1, 1⟩ ⟨10, 1, 1, 1, 1, 1⟩ (by decide)).2.1 (by decide) (by decide),
   (appendCandle_spec 1200 [⟨5, 1, 1, 1, 1, 1⟩, ⟨10, 1, 1, 1, 1, 1⟩]
     ⟨10, 2, 2, 2, 2, 2⟩ ⟨10, 1, 1, 1, 1, 1⟩ (by decide)).2.2.1 (by decide),
   (appendCandle_spec 1200 [⟨5, 1, 1, 1, 1, 1⟩, ⟨10, 1, 1, 1, 1, 1⟩]
     ⟨10, 3, 3, 3, 3, 3⟩ ⟨10, 1, 1, 1, 1, 1⟩ (by decide)).2.2.2.1,
   (appendCandle_spec 1200 [⟨5, 1, 1, 1, 1, 1⟩, ⟨10, 1, 1, 1, 1, 1⟩]
     ⟨20, 1, 1, 1, 1, 1⟩ ⟨10, 1, 1, 1, 1, 1⟩ (by decide)).2.2.2.2.1 (by decide) (by decide)⟩

/-! C5 -/

theorem coalesce_eq_getLastD (first : Request) (queued : List Request) :
    coalesce first queued = queued.getLastD first := by
  induction queued generalizing first with
  | nil => rfl
  | cons q rest ih =>
    rw [List.getLastD_cons]
    exact ih q

/-- C5: one router cycle drains the whole burst and acts only on the last
request: when that request equals the active key nothing happens; when it
differs, the cycle performs exactly one REST bootstrap, one trade-stream
start, one kline-stream start and one depth-stream start, all for the
last request (after cancelling the previous stream tasks when they
exist); and the ticker-array task is never touched by a router cycle. -/
theorem routerCycle_spec (st : RouterState) (first : Request) (queued : List Request) :
    coalesce first queued = queued.getLastD first ∧
    routerCycle st first queued = routerCycle st (queued.getLastD first) [] ∧
    (some (queued.getLastD first).symbol = st.currentSymbol ∧
        some (queued.getLastD first).timeframe = st.currentTimeframe →
      routerCycle st first queued = (st, [])) ∧
    (¬(some (queued.getLastD first).symbol = st.currentSymbol ∧
         some (queued.getLastD first).timeframe = st.currentTimeframe) →
      (routerCycle st first queued).2.filter RouterAction.isBootstrap =
          [RouterAction.bootstrap (queued.getLastD first).symbol
            (queued.getLastD first).timeframe] ∧
        (routerCycle st first queued).2.filter RouterAction.isStartTrade =
          [RouterAction.startTrade (queued.getLastD first).symbol] ∧
        (routerCycle st first queued).2.filter RouterAction.isStartKline =
          [RouterAction.startKline (queued.getLastD first).symbol
            (queued.getLastD first).timeframe] ∧
        (routerCycle st first queued).2.filter RouterAction.isStartDepth =
          [RouterAction.startDepth (queued.getLastD first).symbol]) ∧
    RouterAction.startTickerLoop ∉ (routerCycle st first queued).2 := by
  have hco : coalesce first queued = queued.getLastD first :=
    coalesce_eq_getLastD first queued
  have hco2 : List.foldl (fun _ r => r) first queued = queued.getLastD first := hco
  have hmain : routerCycle st first queued = routerCycle st (queued.getLastD first) [] := by
    simp only [routerCycle, coalesce, List.foldl_nil, hco2]
  by_cases hc : some (queued.getLastD first).symbol = st.currentSymbol ∧
      some (queued.getLastD first).timeframe = st.currentTimeframe
  · have hres : routerCycle st first queued = (st, []) := by
      simp only [routerCycle, hco]
      rw [if_pos hc]
    refine ⟨hco, hmain, fun _ => hres, fun hn => absurd hc hn, ?_⟩
    rw [hres]
    exact List.not_mem_nil _
  · have hres : (routerCycle st first queued).2 =
        (if st.hasStreams then [RouterAction.cancelStreams] else []) ++
          [RouterAction.bootstrap (queued.getLastD first).symbol
             (queued.getLastD first).timeframe,
           RouterAction.startTrade (queued.getLastD first).symbol,
           RouterAction.startKline (queued.getLastD first).symbol
             (queued.getLastD first).timeframe,
           RouterAction.startDepth (queued.getLastD first).symbol] := by
      simp only [routerCycle, hco]
      rw [if_neg hc]
    refine ⟨hco, hmain, fun h => absurd h hc, fun _ => ?_, ?_⟩
    · rw [hres]
      cases st.hasStreams <;>
        simp [List.filter, RouterAction.isBootstrap, RouterAction.isStartTrade,
          RouterAction.isStartKline, RouterAction.isStartDepth]
    · rw [hres]
      cases st.hasStreams <;> simp

/-- C5 witness: a burst of three requests while SOLUSDT 5m streams are
active coalesces to the last request; a second cycle whose coalesced
request equals the active key is a no-op. -/
theorem routerCycle_spec_witness :
    (routerCycle ⟨some "solusdt", some "5m", true⟩ ⟨"btcusdt", "1m"⟩
        [⟨"ethusdt", "1m"⟩, ⟨"adausdt", "4h"⟩] =
      (⟨some "adausdt", some "4h", true⟩,
       [RouterAction.cancelStreams,
        RouterAction.bootstrap "adausdt" "4h",
        RouterAction.startTrade "adausdt",
        RouterAction.startKline "adausdt" "4h",
        RouterAction.startDepth "adausdt"])) ∧
    (¬(some (([⟨"ethusdt", "1m"⟩, ⟨"adausdt", "4h"⟩] : List Request).getLastD
          ⟨"btcusdt", "1m"⟩).symbol = some "solusdt" ∧
       some (([⟨"ethusdt", "1m"⟩, ⟨"adausdt", "4h"⟩] : List Request).getLastD
          ⟨"btcusdt", "1m"⟩).timeframe = some "5m") →
      (routerCycle ⟨some "solusdt", some "5m", true⟩ ⟨"btcusdt", "1m"⟩
          [⟨"ethusdt", "1m"⟩, ⟨"adausdt", "4h"⟩]).2.filter RouterAction.isBootstrap =
        [RouterAction.bootstrap "adausdt" "4h"]) ∧
    (some (([⟨"solusdt", "5m"⟩] : List Request).getLastD ⟨"btcusdt", "1m"⟩).symbol =
        some "solusdt" ∧
       some (([⟨"solusdt", "5m"⟩] : List Request).getLastD ⟨"btcusdt", "1m"⟩).timeframe =
        some "5m" →
      routerCycle ⟨some "solusdt", some "5m", true⟩ ⟨"btcusdt", "1m"⟩
        [⟨"solusdt", "5m"⟩] = (⟨some "solusdt", some "5m", true⟩, [])) ∧
    RouterAction.startTickerLoop ∉
      (routerCycle ⟨some "solusdt", some "5m", true⟩ ⟨"btcusdt", "1m"⟩
        [⟨"ethusdt", "1m"⟩, ⟨"adausdt", "4h"⟩]).2 :=
  ⟨by decide,
   fun h => ((routerCycle_spec ⟨some "solusdt", some "5m", true⟩ ⟨"btcusdt", "1m"⟩
     [⟨"ethusdt", "1m"⟩, ⟨"adausdt", "4h"⟩]).2.2.2.1 h).1,
   (routerCycle_spec ⟨some "solusdt", some "5m", true⟩ ⟨"btcusdt", "1m"⟩
     [⟨"solusdt", "5m"⟩]).2.2.1,
   (routerCycle_spec ⟨some "solusdt", some "5m", true⟩ ⟨"btcusdt", "1m"⟩
     [⟨"ethusdt", "1m"⟩, ⟨"adausdt", "4h"⟩]).2.2.2.2⟩

/-! C9 -/

theorem tickerRun_emit_ge {lastEmit : ℤ} {frames : List (ℤ × List RawTickerItem)} :
    ∀ e ∈ tickerRun lastEmit frames, lastEmit + 400 ≤ e.1 := by
  induction frames generalizing lastEmit with
  | nil =>
    intro e he
    cases he
  | cons f rest ih =>
    intro e he
    rcases f with ⟨now, frame⟩
    by_cases hcond : parseTickerArr frame ≠ [] ∧ 400 ≤ now - lastEmit
    · simp only [tickerRun] at he
      rw [if_pos hcond] at he
      rcases List.mem_cons.mp he with rfl | hmem
      · show lastEmit + 400 ≤ now
        omega
      · have h2 := ih e hmem
        have h3 : lastEmit + 400 ≤ now := by omega
        omega
    · simp only [tickerRun] at he
      rw [if_neg hcond] at he
      exact ih e he

theorem tickerRun_pairwise (lastEmit : ℤ) (frames : List (ℤ × List RawTickerItem)) :
    (tickerRun lastEmit frames).Pairwise (fun e f => e.1 + 400 ≤ f.1) := by
  induction frames generalizing lastEmit with
  | nil => exact List.Pairwise.nil
  | cons f rest ih =>
    rcases f with ⟨now, frame⟩
    by_cases hcond : parseTickerArr frame ≠ [] ∧ 400 ≤ now - lastEmit
    · simp only [tickerRun]
      rw [if_pos hcond]
      exact List.pairwise_cons.mpr ⟨fun e he => tickerRun_emit_ge e he, ih now⟩
    · simp only [tickerRun]
      rw [if_neg hcond]
      exact ih lastEmit

theorem tickerRun_sublist (lastEmit : ℤ) (frames : List (ℤ × List RawTickerItem)) :
    (tickerRun lastEmit frames).Sublist
      (frames.map (fun fr => (fr.1, parseTickerArr fr.2))) := by
  induction frames generalizing lastEmit with
  | nil => exact List.nil_sublist _
  | cons f rest ih =>
    rcases f with ⟨now, frame⟩
    by_cases hcond : parseTickerArr frame ≠ [] ∧ 400 ≤ now - lastEmit
    · simp only [tickerRun, List.map_cons]
      rw [if_pos hcond]
      exact List.Sublist.cons₂ _ (ih now)
    · simp only [tickerRun, List.map_cons]
      rw [if_neg hcond]
      exact List.Sublist.cons _ (ih lastEmit)

theorem spaced_in_window_length {α : Type _} (l : List (ℤ × α)) (lo hi : ℤ)
    (hp : l.Pairwise (fun e f => e.1 + 400 ≤ f.1))
    (hm : ∀ e ∈ l, lo ≤ e.1 ∧ e.1 ≤ hi) :
    l = [] ∨ 400 * (l.length : ℤ) ≤ hi - lo + 400 := by
  induction l generalizing lo with
  | nil => exact Or.inl rfl
  | cons x rest ih =>
    right
    have hx := hm x (List.mem_cons_self x rest)
    have hrest_m : ∀ e ∈ rest, x.1 + 400 ≤ e.1 ∧ e.1 ≤ hi := fun e he =>
      ⟨(List.pairwise_cons.mp hp).1 e he, (hm e (List.mem_cons_of_mem x he)).2⟩
    rcases ih (x.1 + 400) (List.pairwise_cons.mp hp).2 hrest_m with hnil | hlen
    · rw [hnil]
      simp only [List.length_cons, List.length_nil]
      push_cast
      omega
    · simp only [List.length_cons]
      push_cast at hlen ⊢
      omega

/-- C9: ticker emission is throttled to the fixed 0.4 s interval: any two
emissions of one run are at least 400 ms apart; the emissions form a
sublist of the arriving frames (each emission is the parse of the frame
arriving at the emission instant — frames inside an interval are dropped,
never queued or replayed); and any run whose frames all arrive inside a
window of 1.95 s (such as frames every 50 ms for 2 s) produces at most 5
emissions. -/
theorem ticker_throttle_spec (lastEmit : ℤ) (frames : List (ℤ × List RawTickerItem)) :
    (tickerRun lastEmit frames).Pairwise (fun e f => e.1 + 400 ≤ f.1) ∧
    (tickerRun lastEmit frames).Sublist
      (frames.map (fun fr => (fr.1, parseTickerArr fr.2))) ∧
    ∀ t0 : ℤ, (∀ fr ∈ frames, t0 ≤ fr.1 ∧ fr.1 ≤ t0 + 1950) →
      (tickerRun lastEmit frames).length ≤ 5 := by
  refine ⟨tickerRun_pairwise lastEmit frames, tickerRun_sublist lastEmit frames, ?_⟩
  intro t0 hwin
  have hm : ∀ e ∈ tickerRun lastEmit frames, t0 ≤ e.1 ∧ e.1 ≤ t0 + 1950 := by
    intro e he
    have hmem := (tickerRun_sublist lastEmit frames).subset he
    rcases List.mem_map.mp hmem with ⟨fr, hfr, rfl⟩
    exact hwin fr hfr
  rcases spaced_in_window_length _ t0 (t0 + 1950)
      (tickerRun_pairwise lastEmit frames) hm with hnil | hlen
  · rw [hnil]
    simp
  · omega

/-- C9 witness: 40 frames at 50 ms intervals over 2 s, starting from the
initial emission origin 0; the run emits exactly 5 events. -/
theorem ticker_throttle_spec_witness :
    (tickerRun 0 ((List.range 40).map
        (fun k => ((10000 : ℤ) + 50 * k, [⟨"BTCUSDT", 1, 2, 3, 4, 5⟩])))).Pairwise
      (fun e f => e.1 + 400 ≤ f.1) ∧
    (∀ fr ∈ (List.range 40).map
        (fun k => ((10000 : ℤ) + 50 * k, [(⟨"BTCUSDT", 1, 2, 3, 4, 5⟩ : RawTickerItem)])),
      (10000 : ℤ) ≤ fr.1 ∧ fr.1 ≤ 10000 + 1950) ∧
    (tickerRun 0 ((List.range 40).map
        (fun k => ((10000 : ℤ) + 50 * k, [⟨"BTCUSDT", 1, 2, 3, 4, 5⟩])))).length ≤ 5 ∧
    (tickerRun 0 ((List.range 40).map
        (fun k => ((10000 : ℤ) + 50 * k, [⟨"BTCUSDT", 1, 2, 3, 4, 5⟩])))).map Prod.fst =
      [10000, 10400, 10800, 11200, 11600] :=
  ⟨(ticker_throttle_spec 0 _).1,
   by decide,
   (ticker_throttle_spec 0 _).2.2 10000 (by decide),
   by decide⟩

/-! C10 -/

theorem Book.keysNodup_take (n : Nat) {b : Book} (h : b.keysNodup) :
    Book.keysNodup (b.take n) := by
  have hmap : (b.take n).map Prod.fst = (b.map Prod.fst).take n := List.map_take _ _ _
  unfold keysNodup
  rw [hmap]
  exact h.sublist (List.take_sublist n _)

/-- C10: every DepthUpdateEvent produced from an applied diff frame
carries at most 50 bid levels and at most 50 ask levels, with prices
unique per side, bids strictly descending and asks strictly ascending in
price; the DepthSnapshotEvent built by the bootstrap or a resync carries
the full filtered book on both sides (a permutation of the replica maps,
with no 50-level truncation), sorted the same way. -/
theorem depth_event_shape (st : DepthState) (p : DiffPayload) (st2 : DepthState)
    (bl al : Book) (u : ℤ) (snap : RawSnapshot) (symbol : String)
    (hnb : st.bids.keysNodup) (hna : st.asks.keysNodup)
    (happ : applyDepthDiff st (some p) = (st2, DiffResult.applied bl al u)) :
    bl.length ≤ 50 ∧ al.length ≤ 50 ∧
    bl.keysNodup ∧ al.keysNodup ∧
    bl.Pairwise (fun e f => f.1 < e.1) ∧ al.Pairwise (fun e f => e.1 < f.1) ∧
    (prefetchSnapshotEvent symbol snap).2.bids.Perm
      (prefetchSnapshotEvent symbol snap).1.bids ∧
    (prefetchSnapshotEvent symbol snap).2.asks.Perm
      (prefetchSnapshotEvent symbol snap).1.asks ∧
    (prefetchSnapshotEvent symbol snap).2.bids.Pairwise (fun e f => f.1 < e.1) ∧
    (prefetchSnapshotEvent symbol snap).2.asks.Pairwise (fun e f => e.1 < f.1) := by
  have hsnapshot :
      (prefetchSnapshotEvent symbol snap).2.bids.Perm
        (prefetchSnapshotEvent symbol snap).1.bids ∧
      (prefetchSnapshotEvent symbol snap).2.asks.Perm
        (prefetchSnapshotEvent symbol snap).1.asks ∧
      (prefetchSnapshotEvent symbol snap).2.bids.Pairwise (fun e f => f.1 < e.1) ∧
      (prefetchSnapshotEvent symbol snap).2.asks.Pairwise (fun e f => e.1 < f.1) :=
    ⟨Book.sortDesc_perm (applySnapshot snap).bids,
     Book.sortAsc_perm (applySnapshot snap).asks,
     Book.sortDesc_strict (Book.keysNodup_toDict _),
     Book.sortAsc_strict (Book.keysNodup_toDict _)⟩
  rcases p with ⟨pU, pu, pb, pa⟩
  rcases pU with _ | fu
  · exact absurd happ (by simp [applyDepthDiff])
  rcases pu with _ | lu
  · exact absurd happ (by simp [applyDepthDiff])
  simp only [applyDepthDiff] at happ
  split_ifs at happ with h1 h2 h3
  · simp at happ
  · simp at happ
  · simp at happ
  · rw [Prod.mk.injEq, DiffResult.applied.injEq] at happ
    obtain ⟨hst2, hbl, hal, hu⟩ := happ
    have hnb2 : (applyChanges st.bids pb).keysNodup := keysNodup_applyChanges pb hnb
    have hna2 : (applyChanges st.asks pa).keysNodup := keysNodup_applyChanges pa hna
    refine ⟨?_, ?_, ?_, ?_, ?_, ?_, hsnapshot.1, hsnapshot.2.1, hsnapshot.2.2.1,
      hsnapshot.2.2.2⟩
    · rw [← hbl]
      exact List.length_take_le 50 _
    · rw [← hal]
      exact List.length_take_le 50 _
    · rw [← hbl]
      exact Book.keysNodup_take 50 (Book.keysNodup_of_perm (Book.sortDesc_perm _).symm hnb2)
    · rw [← hal]
      exact Book.keysNodup_take 50 (Book.keysNodup_of_perm (Book.sortAsc_perm _).symm hna2)
    · rw [← hbl]
      exact (Book.sortDesc_strict hnb2).sublist (List.take_sublist 50 _)
    · rw [← hal]
      exact (Book.sortAsc_strict hna2).sublist (List.take_sublist 50 _)

/-- C10 witness: a concrete accepted diff on a two-level book produces an
update event with short, strictly sorted, duplicate-free sides, and the
concrete snapshot event carries the whole filtered book. -/
theorem depth_event_shape_witness :
    ((⟨10, [(100, 5), (99, 2)], [(101, 3)]⟩ : DepthState)).bids.keysNodup ∧
    applyDepthDiff ⟨10, [(100, 5), (99, 2)], [(101, 3)]⟩
        (some ⟨some 11, some 12, [(98, 1)], [(102, 4)]⟩) =
      (⟨12, [(100, 5), (99, 2), (98, 1)], [(101, 3), (102, 4)]⟩,
       DiffResult.applied [(100, 5), (99, 2), (98, 1)] [(101, 3), (102, 4)] 12) ∧
    ([((100 : ℚ), (5 : ℚ)), (99, 2), (98, 1)].length ≤ 50 ∧
      ([((100 : ℚ), (5 : ℚ)), (99, 2), (98, 1)] : Book).Pairwise (fun e f => f.1 < e.1) ∧
      (prefetchSnapshotEvent "btcusdt" ⟨[(100, 5)], [(101, 3)], 10⟩).2.bids.Perm
        (prefetchSnapshotEvent "btcusdt" ⟨[(100, 5)], [(101, 3)], 10⟩).1.bids) :=
  ⟨by decide,
   by decide,
   (depth_event_shape ⟨10, [(100, 5), (99, 2)], [(101, 3)]⟩
      ⟨some 11, some 12, [(98, 1)], [(102, 4)]⟩
      ⟨12, [(100, 5), (99, 2), (98, 1)], [(101, 3), (102, 4)]⟩
      [(100, 5), (99, 2), (98, 1)] [(101, 3), (102, 4)] 12
      ⟨[(100, 5)], [(101, 3)], 10⟩ "btcusdt"
      (by decide) (by decide) (by decide)).1,
   (depth_event_shape ⟨10, [(100, 5), (99, 2)], [(101, 3)]⟩
      ⟨some 11, some 12, [(98, 1)], [(102, 4)]⟩
      ⟨12, [(100, 5), (99, 2), (98, 1)], [(101, 3), (102, 4)]⟩
      [(100, 5), (99, 2), (98, 1)] [(101, 3), (102, 4)] 12
      ⟨[(100, 5)], [(101, 3)], 10⟩ "btcusdt"
      (by decide) (by decide) (by decide)).2.2.2.2.1,
   (depth_event_shape ⟨10, [(100, 5), (99, 2)], [(101, 3)]⟩
      ⟨some 11, some 12, [(98, 1)], [(102, 4)]⟩
      ⟨12, [(100, 5), (99, 2), (98, 1)], [(101, 3), (102, 4)]⟩
      [(100, 5), (99, 2), (98, 1)] [(101, 3), (102, 4)] 12
      ⟨[(100, 5)], [(101, 3)], 10⟩ "btcusdt"
      (by decide) (by decide) (by decide)).2.2.2.2.2.2.1⟩

end Omni
